import Mathlib

/-!
Create-or-update of repository rulesets.

A shallow embedding of `.github/scripts/apply-branch-rules.js`.

* Values are the values `JSON.parse` produces, plus `undefined`.  An object
  is its member list in source order; as in an object literal, a later
  member of the same key replaces an earlier one.  Numbers are integers.
* The remote API (`octokit.request`) is a parameter `remote`.  It answers a
  request, given everything the script has done before, with a response
  `{status, data}` (a numeric status and a value as data) or by throwing.
  A thrown value is `undefined`, `null`, or any other value, of which the
  script reads `message` and `response.data`; the data of an error response
  may be a value that `JSON.stringify` rejects.
* The string conversions of the template literals that can throw are part of
  the embedding: `ruleConfig.name` (line 45, before the `try`),
  `existingRule.id` (line 57) and `error.message` (line 89), as is
  `JSON.stringify(error.response.data)` (line 91).  `console.log` and
  `console.error` themselves return normally.
* Every call of `processRepository`, of `applyRuleset` and of
  `octokit.request` (with its answer) is recorded in an event log, and so is
  the summary block (lines 139-142).
-/

namespace ApplyBranchRules

/-- JavaScript values that occur in the script. -/
inductive Value where
  | undefined
  | null
  | bool (b : Bool)
  | num (n : Int)
  | str (s : String)
  | arr (items : List Value)
  | obj (members : List (String × Value))

/-- Member list of an object, in source order. -/
abbrev Obj := List (String × Value)

/-- Own property test: `k in o` for a plain object. -/
def Obj.hasKey (o : Obj) (k : String) : Bool :=
  o.any (fun kv => kv.1 == k)

/-- Own member `k` of a plain object: the last member named `k`, or
`undefined` when there is none.  It is the value of the property read `o.k`
for every key that `Object.prototype` does not define. -/
def Obj.get (o : Obj) (k : String) : Value :=
  match o.reverse.lookup k with
  | some v => v
  | none => Value.undefined

mutual
/-- Whether the string conversion of a value in a template literal completes.
An object with an own member `toString` has no callable `toString` and its
`valueOf` yields no primitive: the conversion is a TypeError.  An array is
joined, which converts each of its elements. -/
def Value.printable : Value → Bool
  | .arr items => Value.printableItems items
  | .obj members => !(members.any (fun kv => kv.1 == "toString"))
  | _ => true
/-- Whether the string conversion of every element completes. -/
def Value.printableItems : List Value → Bool
  | [] => true
  | v :: rest => v.printable && Value.printableItems rest
end

/-- The data of an error response, as line 91 uses it. -/
inductive ErrorData where
  | json (data : Value)
  | unserialisable

/-- A thrown value: `undefined`, `null`, or a value with the properties the
`catch` block reads.  `response` is `none` when `error.response` is falsy,
and else the `data` of the response. -/
inductive Thrown where
  | undefined
  | null
  | error (message : Value) (response : Option ErrorData)

/-- A TypeError raised by the JavaScript engine: a message string and no
`response`. -/
def typeError : Thrown := .error (.str "TypeError") none

/-- Result of evaluating a piece of code: a value, or a thrown error. -/
inductive Completion (α : Type) where
  | normal (v : α)
  | throw (error : Thrown)

/-- Strict equality `a === b` between a value of the listing response and a
value of the rule configuration.  Both come from separate `JSON.parse` calls,
so two objects or arrays are never the same reference. -/
def strictEq : Value → Value → Bool
  | .undefined, .undefined => true
  | .null, .null => true
  | .bool a, .bool b => a == b
  | .num a, .num b => a == b
  | .str a, .str b => a == b
  | _, _ => false

/-- Truthiness, as tested by `if (existingRule)`. -/
def truthy : Value → Bool
  | .undefined => false
  | .null => false
  | .bool b => b
  | .num n => n != 0
  | .str s => s != ""
  | .arr _ => true
  | .obj _ => true

/-- Truthiness of the data of an error response; a value that
`JSON.stringify` rejects (an object graph with a cycle) is an object. -/
def ErrorData.present : ErrorData → Bool
  | .json data => truthy data
  | .unserialisable => true

/-- Property read `v.k` for the keys `name` and `id`, which no built-in
prototype defines: a TypeError on `undefined` and `null`, the own member on
an object, `undefined` on every other value. -/
def prop (v : Value) (k : String) : Completion Value :=
  match v with
  | .undefined => .throw typeError
  | .null => .throw typeError
  | .obj members => .normal (Obj.get members k)
  | _ => .normal .undefined

/-- The loop of `Array.prototype.find` with the callback
`rule => rule.name === ruleConfig.name` (line 54). -/
def findRule (name : Value) : List Value → Completion Value
  | [] => .normal .undefined
  | rule :: rest =>
    match prop rule "name" with
    | .throw error => .throw error
    | .normal n => if strictEq n name then .normal rule else findRule name rest

/-- Line 54: `existingRules.data.find(...)`.  Only an array has a callable
`find`; on any other value the call is a TypeError. -/
def find (data : Value) (name : Value) : Completion Value :=
  match data with
  | .arr items => findRule name items
  | _ => .throw typeError

/-- The three routes the script passes to `octokit.request`:
`GET /repos/{owner}/{repo}/rulesets`,
`PUT /repos/{owner}/{repo}/rulesets/{ruleset_id}` and
`POST /repos/{owner}/{repo}/rulesets`. -/
inductive Route where
  | listRulesets
  | updateRuleset
  | createRuleset
  deriving DecidableEq

/-- One call `octokit.request(route, params)`. -/
structure Request where
  route : Route
  params : Obj

/-- A write request is an update or a create. -/
def Request.isWrite (r : Request) : Bool :=
  match r.route with
  | .listRulesets => false
  | _ => true

/-- Answer of the remote API to one request. -/
inductive Outcome where
  | throws (error : Thrown)
  | response (status : Nat) (data : Value)

/-- A response whose status is in the 2xx class. -/
def Outcome.ok : Outcome → Bool
  | .throws _ => false
  | .response status _ => decide (200 ≤ status) && decide (status < 300)

/-- Observable steps of a run. -/
inductive Event where
  | processing (repo : String)
  | applying (repo : String) (ruleConfig : Obj)
  | request (req : Request) (answer : Outcome)
  | summary (totalRepos rulesApplied rulesFailed : Nat)

/-- The remote API: its answer to a request may depend on everything that
happened before. -/
abbrev Remote := List Event → Request → Outcome

/-- Lines 49-52: parameters of the listing call. -/
def listRequest (org repo : String) : Request :=
  ⟨.listRulesets, [("owner", .str org), ("repo", .str repo)]⟩

/-- Lines 59-64: parameters of the update call; the members of `ruleConfig`
are spread after the three computed ones. -/
def updateRequest (org repo : String) (id : Value) (ruleConfig : Obj) : Request :=
  ⟨.updateRuleset,
    [("owner", .str org), ("repo", .str repo), ("ruleset_id", id)] ++ ruleConfig⟩

/-- Lines 74-78: parameters of the create call. -/
def createRequest (org repo : String) (ruleConfig : Obj) : Request :=
  ⟨.createRuleset, [("owner", .str org), ("repo", .str repo)] ++ ruleConfig⟩

/-- Lines 66-72 and 80-86: the write call and the test of its status. -/
def writeAndCheck (remote : Remote) (req : Request) (log : List Event) :
    Completion Bool × List Event :=
  match remote log req with
  | .throws error => (.throw error, log ++ [.request req (.throws error)])
  | .response status data =>
    (.normal (decide (200 ≤ status) && decide (status < 300)),
      log ++ [.request req (.response status data)])

/-- Lines 48-87: the body of the `try` block of `applyRuleset`.  On the
update path the log line of line 57 converts `existingRule.id` to a string
before the update call is made. -/
def applyRulesetTry (remote : Remote) (org repo : String) (ruleConfig : Obj)
    (log : List Event) : Completion Bool × List Event :=
  match remote log (listRequest org repo) with
  | .throws error => (.throw error, log ++ [.request (listRequest org repo) (.throws error)])
  | .response status data =>
    let log1 := log ++ [.request (listRequest org repo) (.response status data)]
    match find data (Obj.get ruleConfig "name") with
    | .throw error => (.throw error, log1)
    | .normal existingRule =>
      if truthy existingRule then
        match prop existingRule "id" with
        | .throw error => (.throw error, log1)
        | .normal id =>
          if id.printable then
            writeAndCheck remote (updateRequest org repo id ruleConfig) log1
          else (.throw typeError, log1)
      else
        writeAndCheck remote (createRequest org repo ruleConfig) log1

/-- Lines 88-94: the `catch` block of `applyRuleset`.  Line 89 reads
`error.message` (a TypeError on `undefined` and `null`) and converts it to a
string; line 90 tests `error.response && error.response.data`; line 91
serialises the data.  An error raised here leaves `applyRuleset`. -/
def catchBlock (error : Thrown) : Completion Bool :=
  match error with
  | .undefined => .throw typeError
  | .null => .throw typeError
  | .error message response =>
    if message.printable then
      match response with
      | none => .normal false
      | some data =>
        if data.present then
          match data with
          | .json _ => .normal false
          | .unserialisable => .throw typeError
        else .normal false
    else .throw typeError

/-- Lines 44-95: `applyRuleset(repo, ruleConfig)`.  Line 45 converts
`ruleConfig.name` to a string before the `try` block is entered. -/
def applyRuleset (remote : Remote) (org repo : String) (ruleConfig : Obj)
    (log : List Event) : Completion Bool × List Event :=
  let log0 := log ++ [.applying repo ruleConfig]
  if (Obj.get ruleConfig "name").printable then
    match applyRulesetTry remote org repo ruleConfig log0 with
    | (.normal b, log1) => (.normal b, log1)
    | (.throw error, log1) => (catchBlock error, log1)
  else (.throw typeError, log0)

/-- Lines 25-29: the run counters. -/
structure Counters where
  totalRepos : Nat
  rulesApplied : Nat
  rulesFailed : Nat

/-- State of a run: the run counters and the event log. -/
structure World where
  counters : Counters
  log : List Event

/-- Module-level constants: the organization (line 11) and the two rule
configurations read from the configuration files (lines 35-36). -/
structure Script where
  org : String
  branchNamingRule : Obj
  preventDeleteRule : Obj

/-- Lines 116-123: the counter update of `processRepository`. -/
def count (success : Nat) (c : Counters) : Counters :=
  if success > 0 then { c with rulesApplied := c.rulesApplied + 1 }
  else { c with rulesFailed := c.rulesFailed + 1 }

/-- Lines 101-124: `processRepository(repo)`. -/
def processRepository (remote : Remote) (s : Script) (repo : String) (w : World) :
    Completion Unit × World :=
  let log0 := w.log ++ [.processing repo]
  let success := 0
  match applyRuleset remote s.org repo s.branchNamingRule log0 with
  | (.throw error, log1) => (.throw error, { w with log := log1 })
  | (.normal b1, log1) =>
    let success := if b1 then success + 1 else success
    match applyRuleset remote s.org repo s.preventDeleteRule log1 with
    | (.throw error, log2) => (.throw error, { w with log := log2 })
    | (.normal b2, log2) =>
      let success := if b2 then success + 1 else success
      (.normal (), { counters := count success w.counters, log := log2 })

/-- Lines 134-136: the loop over `repos`. -/
def processAll (remote : Remote) (s : Script) : List String → World → Completion Unit × World
  | [], w => (.normal (), w)
  | repo :: rest, w =>
    match processRepository remote s repo w with
    | (.throw error, w1) => (.throw error, w1)
    | (.normal _, w1) => processAll remote s rest w1

/-- Lines 129-147: `main()`; the result is the exit status of the process
and the final state.  An error that leaves the loop reaches the `catch`
block of lines 143-146, which ends the process with status 1. -/
def main (remote : Remote) (s : Script) (repos : List String) (w : World) : Nat × World :=
  match processAll remote s repos w with
  | (.normal _, w1) =>
    (0, { w1 with log := w1.log ++
      [.summary w1.counters.totalRepos w1.counters.rulesApplied w1.counters.rulesFailed] })
  | (.throw _, w1) => (1, w1)

/-- Lines 25-29: the state when the module has been loaded. -/
def initial (repos : List String) : World :=
  { counters := { totalRepos := repos.length, rulesApplied := 0, rulesFailed := 0 }, log := [] }

/-- The whole script: load, then `main()`. -/
def run (remote : Remote) (s : Script) (repos : List String) : Nat × World :=
  main remote s repos (initial repos)

/-! ## Observations on the event log -/

/-- The calls of `applyRuleset` recorded in a log, in order. -/
def applyCalls (events : List Event) : List (String × Obj) :=
  events.filterMap (fun e =>
    match e with
    | .applying repo ruleConfig => some (repo, ruleConfig)
    | _ => none)

/-- The repositories `processRepository` was called on, in order. -/
def processed (events : List Event) : List String :=
  events.filterMap (fun e =>
    match e with
    | .processing repo => some repo
    | _ => none)

/-- The requests sent to the remote API, in order. -/
def requestsOf (events : List Event) : List Request :=
  events.filterMap (fun e =>
    match e with
    | .request req _ => some req
    | _ => none)

/-- Read before write: in `events`, every write request comes directly
after a call of the request `listing`. -/
def ReadBeforeWrite (listing : Request) (events : List Event) : Prop :=
  ∀ before after write answer,
    events = before ++ Event.request write answer :: after → write.isWrite = true →
    ∃ earlier listed, before = earlier ++ [Event.request listing listed]

/-- The `catch` block of `applyRuleset` completes on every value the remote
throws: none is `undefined` or `null`, each has a `message` with a string
conversion, and response data that `JSON.stringify` accepts. -/
def Handled (remote : Remote) : Prop :=
  ∀ log req error, remote log req = .throws error → catchBlock error = .normal false

/-- The result of `applyRuleset` after a write call with the given answer. -/
def resultOf (answer : Outcome) : Completion Bool :=
  match answer with
  | .throws error => catchBlock error
  | .response status _ => .normal (decide (200 ≤ status) && decide (status < 300))

/-- What a call of `applyRuleset` logs after its entry: nothing, or the
listing call, or the listing call and one write call. -/
def CallSteps (listing : Request) (steps : List Event) : Prop :=
  steps = [] ∨ (∃ listed, steps = [Event.request listing listed]) ∨
    ∃ listed write answer,
      steps = [Event.request listing listed, Event.request write answer] ∧
        write.isWrite = true

/-! ## Concrete runs -/

/-- A remote that answers every listing with status 200 and the given data,
and every write with status 200. -/
def listingRemote (data : Value) : Remote := fun _ req =>
  match req.route with
  | .listRulesets => .response 200 data
  | _ => .response 200 .null

/-- A remote on which every repository already has ruleset 1, named
`naming`, and every write succeeds with status 200. -/
def seededRemote : Remote := fun _ req =>
  match req.route with
  | .listRulesets =>
    .response 200 (.arr [.obj [("id", .num 1), ("name", .str "naming")]])
  | _ => .response 200 .null

/-- A rule configuration that carries a `ruleset_id` member of its own. -/
def overridingRule : Obj := [("name", .str "naming"), ("ruleset_id", .num 99)]

/-- A rule configuration with a name and a rule body only. -/
def namingRule : Obj := [("name", .str "naming"), ("enforcement", .str "active")]

/-- A value without string conversion: an object with an own member
`toString`. -/
def oddValue : Value := .obj [("toString", .num 0)]

/-- A rule configuration whose name has no string conversion. -/
def oddNameRule : Obj := [("name", oddValue)]

/-- A rule configuration without a name. -/
def namelessRule : Obj := [("enforcement", .str "active")]

/-- An error as the request library throws it: a message and no response. -/
def networkError : Thrown := .error (.str "network failure") none

/-- A remote that answers every listing with an empty array and status 200
and throws an error on every write. -/
def writeFailingRemote : Remote := fun _ req =>
  match req.route with
  | .listRulesets => .response 200 (.arr [])
  | _ => .throws networkError

/-- A rule configuration for deletion prevention. -/
def deletionRule : Obj := [("name", .str "no-delete"), ("enforcement", .str "active")]

/-- A script instance: organization `city` and the two rule configurations. -/
def cityScript : Script :=
  { org := "city", branchNamingRule := namingRule, preventDeleteRule := deletionRule }

/-- A remote on which no repository has a ruleset and every write succeeds
with status 201. -/
def freshRemote : Remote := fun _ req =>
  match req.route with
  | .listRulesets => .response 200 (.arr [])
  | _ => .response 201 .null

/-- A remote that throws an error on every request. -/
def downRemote : Remote := fun _ _ => .throws networkError

/-- A remote whose every call rejects with `undefined`. -/
def undefinedRemote : Remote := fun _ _ => .throws .undefined

/-- A remote whose every call rejects with an error whose response data
cannot be serialised. -/
def cyclicRemote : Remote := fun _ _ =>
  .throws (.error (.str "failed") (some .unserialisable))

/-- A remote that answers every listing with an empty array and rejects
every write with `null`. -/
def writeNullRemote : Remote := fun _ req =>
  match req.route with
  | .listRulesets => .response 200 (.arr [])
  | _ => .throws .null

/-- A remote whose every call rejects with an error whose message has no
string conversion. -/
def oddMessageRemote : Remote := fun _ _ => .throws (.error oddValue none)

/-- A script instance whose branch-naming rule has a name without string
conversion. -/
def oddScript : Script :=
  { org := "city", branchNamingRule := oddNameRule, preventDeleteRule := deletionRule }

/-- A rule configuration with members named `owner`, `repo` and
`ruleset_id`. -/
def retargetingRule : Obj :=
  [("name", .str "naming"), ("owner", .str "elsewhere"), ("repo", .str "other"),
    ("ruleset_id", .num 99)]

/-- A remote on which no repository has a ruleset, the creation of the
ruleset named `no-delete` throws an error, and every other write succeeds. -/
def partialRemote : Remote := fun _ req =>
  match req.route with
  | .listRulesets => .response 200 (.arr [])
  | _ =>
    match Obj.get req.params "name" with
    | .str n => if n == "no-delete" then .throws networkError else .response 201 .null
    | _ => .response 201 .null

/-! ## Properties -/

theorem Obj.hasKey_eq_isSome (o : Obj) (k : String) :
    Obj.hasKey o k = (o.reverse.lookup k).isSome := by
  rw [Bool.eq_iff_iff, List.lookup_isSome_iff]
  simp only [Obj.hasKey, List.any_eq_true, List.mem_reverse, beq_iff_eq]
  constructor
  · rintro ⟨p, hp, h⟩
    exact ⟨p, hp, h.symm⟩
  · rintro ⟨p, hp, h⟩
    exact ⟨p, hp, h.symm⟩

/-- Spread: a read of the merged object sees the member of the object spread
last when it has one, and the base member otherwise. -/
theorem Obj.get_append (base o : Obj) (k : String) :
    Obj.get (base ++ o) k = if Obj.hasKey o k then Obj.get o k else Obj.get base k := by
  rw [Obj.hasKey_eq_isSome]
  simp only [Obj.get, List.reverse_append, List.lookup_append]
  cases h : o.reverse.lookup k <;> simp

theorem findRule_objects (name : Value) (rs : List Obj) :
    findRule name (rs.map Value.obj) =
      .normal (match rs.find? (fun r => strictEq (Obj.get r "name") name) with
        | some r => Value.obj r
        | none => Value.undefined) := by
  induction rs with
  | nil => rfl
  | cons r rest ih =>
    simp only [List.map_cons, findRule, prop, List.find?_cons]
    cases h : strictEq (Obj.get r "name") name
    · simpa using ih
    · simp

theorem catchBlock_typeError : catchBlock typeError = .normal false := rfl

theorem findRule_throw {name : Value} {items : List Value} {error : Thrown}
    (h : findRule name items = .throw error) : error = typeError := by
  induction items with
  | nil => cases h
  | cons rule rest ih =>
    simp only [findRule] at h
    cases hp : prop rule "name" with
    | throw e =>
      rw [hp] at h
      simp only [Completion.throw.injEq] at h
      subst h
      cases rule <;> simp [prop] at hp <;> exact hp.symm
    | normal n =>
      rw [hp] at h
      simp only at h
      split at h
      · cases h
      · exact ih h

theorem find_throw {data name : Value} {error : Thrown}
    (h : find data name = .throw error) : error = typeError := by
  cases data with
  | arr items => exact findRule_throw h
  | _ =>
    simp [find] at h
    exact h.symm

/-- After the write call the `catch` block sees what the call threw. -/
theorem writeAndCheck_eq (remote : Remote) (req : Request) (log : List Event) :
    (match writeAndCheck remote req log with
      | (.normal b, l) => (Completion.normal b, l)
      | (.throw error, l) => (catchBlock error, l)) =
      (resultOf (remote log req), log ++ [.request req (remote log req)]) := by
  unfold writeAndCheck
  cases remote log req <;> simp [resultOf]

/-- The shapes of a call of `applyRuleset`. -/
theorem applyRuleset_cases (remote : Remote) (org repo : String) (ruleConfig : Obj)
    (log : List Event) :
    ((Obj.get ruleConfig "name").printable = false ∧
      applyRuleset remote org repo ruleConfig log =
        (.throw typeError, log ++ [.applying repo ruleConfig])) ∨
    ((Obj.get ruleConfig "name").printable = true ∧
      ((∃ error,
        remote (log ++ [.applying repo ruleConfig]) (listRequest org repo) = .throws error ∧
        applyRuleset remote org repo ruleConfig log =
          (catchBlock error, log ++ [.applying repo ruleConfig] ++
            [.request (listRequest org repo) (.throws error)])) ∨
      (∃ status data,
        remote (log ++ [.applying repo ruleConfig]) (listRequest org repo) =
          .response status data ∧
        applyRuleset remote org repo ruleConfig log =
          (.normal false, log ++ [.applying repo ruleConfig] ++
            [.request (listRequest org repo) (.response status data)])) ∨
      (∃ status data write,
        remote (log ++ [.applying repo ruleConfig]) (listRequest org repo) =
          .response status data ∧
        ((∃ rule, find data (Obj.get ruleConfig "name") = .normal rule ∧ truthy rule = false ∧
            write = createRequest org repo ruleConfig) ∨
          ∃ rule id, find data (Obj.get ruleConfig "name") = .normal rule ∧
            truthy rule = true ∧ prop rule "id" = .normal id ∧ id.printable = true ∧
            write = updateRequest org repo id ruleConfig) ∧
        applyRuleset remote org repo ruleConfig log =
          (resultOf (remote (log ++ [.applying repo ruleConfig] ++
              [.request (listRequest org repo) (.response status data)]) write),
            log ++ [.applying repo ruleConfig] ++
              [.request (listRequest org repo) (.response status data)] ++
              [.request write (remote (log ++ [.applying repo ruleConfig] ++
                [.request (listRequest org repo) (.response status data)]) write)])))) := by
  unfold applyRuleset
  cases hn : (Obj.get ruleConfig "name").printable with
  | false => left; exact ⟨rfl, rfl⟩
  | true =>
    right
    refine ⟨rfl, ?_⟩
    simp only [if_true]
    unfold applyRulesetTry
    cases hl : remote (log ++ [.applying repo ruleConfig]) (listRequest org repo) with
    | throws error => left; exact ⟨error, rfl, rfl⟩
    | response status data =>
      right
      simp only []
      cases hf : find data (Obj.get ruleConfig "name") with
      | throw error =>
        left
        refine ⟨status, data, rfl, ?_⟩
        simp only [find_throw hf, catchBlock_typeError]
      | normal existingRule =>
        simp only []
        cases ht : truthy existingRule with
        | false =>
          right
          refine ⟨status, data, createRequest org repo ruleConfig, rfl,
            Or.inl ⟨existingRule, hf, ht, rfl⟩, ?_⟩
          exact writeAndCheck_eq remote (createRequest org repo ruleConfig) _
        | true =>
          simp only [if_true]
          cases hp : prop existingRule "id" with
          | throw error =>
            cases existingRule <;> simp [prop, truthy] at hp ht
          | normal id =>
            simp only []
            cases hi : id.printable with
            | false =>
              left
              refine ⟨status, data, rfl, ?_⟩
              simp [catchBlock_typeError]
            | true =>
              right
              refine ⟨status, data, updateRequest org repo id ruleConfig, rfl,
                Or.inr ⟨existingRule, id, hf, ht, hp, hi, rfl⟩, ?_⟩
              simp only [if_true]
              exact writeAndCheck_eq remote (updateRequest org repo id ruleConfig) _

/-- C1 (amended): for a rule configuration whose name has a string
conversion, and a listing answered with an array of ruleset objects in which
the id of the first ruleset of the configured name (if any) has a string
conversion, `applyRuleset` issues exactly one further request.  It is the
update call, built from the id of the first listed ruleset whose name is
strictly equal to `ruleConfig.name`, when there is such a ruleset, and the
create call when there is none.  The update call carries that id as
`ruleset_id` whenever `ruleConfig` has no member named `ruleset_id`. -/
theorem applyRuleset_create_or_update (remote : Remote) (org repo : String)
    (ruleConfig : Obj) (log : List Event) (status : Nat) (rs : List Obj)
    (hname : (Obj.get ruleConfig "name").printable = true)
    (hlist : remote (log ++ [.applying repo ruleConfig]) (listRequest org repo) =
      .response status (.arr (rs.map Value.obj)))
    (hid : ∀ r, rs.find? (fun r => strictEq (Obj.get r "name") (Obj.get ruleConfig "name")) =
      some r → (Obj.get r "id").printable = true) :
    ∃ write answer,
      (applyRuleset remote org repo ruleConfig log).2 =
        log ++ [.applying repo ruleConfig,
          .request (listRequest org repo) (.response status (.arr (rs.map Value.obj))),
          .request write answer] ∧
      (∀ r, rs.find? (fun r => strictEq (Obj.get r "name") (Obj.get ruleConfig "name")) = some r →
        write = updateRequest org repo (Obj.get r "id") ruleConfig ∧
        (Obj.hasKey ruleConfig "ruleset_id" = false →
          Obj.get write.params "ruleset_id" = Obj.get r "id")) ∧
      (rs.find? (fun r => strictEq (Obj.get r "name") (Obj.get ruleConfig "name")) = none →
        write = createRequest org repo ruleConfig) := by
  simp only [applyRuleset, hname, if_true, applyRulesetTry, hlist, find, findRule_objects]
  cases hf : rs.find? (fun r => strictEq (Obj.get r "name") (Obj.get ruleConfig "name")) with
  | none =>
    simp only [truthy, writeAndCheck]
    cases remote _ (createRequest org repo ruleConfig) <;> simp
  | some r =>
    simp only [truthy, prop, writeAndCheck, if_true, hid r hf]
    have hkey : Obj.hasKey ruleConfig "ruleset_id" = false →
        Obj.get (updateRequest org repo (Obj.get r "id") ruleConfig).params "ruleset_id" =
          Obj.get r "id" := by
      intro hk
      simp only [updateRequest, Obj.get_append, hk]
      simp [Obj.get, List.lookup]
    cases remote _ (updateRequest org repo (Obj.get r "id") ruleConfig) <;> simp <;> exact hkey

/-- Witness of C1 (amended): a repository that already has a ruleset of the
configured name; the write is the update call and carries id 1. -/
theorem applyRuleset_create_or_update_witness :
    (Obj.get namingRule "name").printable = true ∧
    seededRemote ([] ++ [.applying "repo-a" namingRule]) (listRequest "city" "repo-a") =
        .response 200 (.arr ([[("id", .num 1), ("name", .str "naming")]].map Value.obj)) ∧
      ∃ write answer,
        (applyRuleset seededRemote "city" "repo-a" namingRule []).2 =
          [] ++ [.applying "repo-a" namingRule,
            .request (listRequest "city" "repo-a")
              (.response 200 (.arr ([[("id", .num 1), ("name", .str "naming")]].map Value.obj))),
            .request write answer] ∧
        (∀ r, [[("id", Value.num 1), ("name", Value.str "naming")]].find?
            (fun r => strictEq (Obj.get r "name") (Obj.get namingRule "name")) = some r →
          write = updateRequest "city" "repo-a" (Obj.get r "id") namingRule ∧
          (Obj.hasKey namingRule "ruleset_id" = false →
            Obj.get write.params "ruleset_id" = Obj.get r "id")) ∧
        ([[("id", Value.num 1), ("name", Value.str "naming")]].find?
            (fun r => strictEq (Obj.get r "name") (Obj.get namingRule "name")) = none →
          write = createRequest "city" "repo-a" namingRule) :=
  ⟨rfl, rfl, applyRuleset_create_or_update seededRemote "city" "repo-a" namingRule [] 200
    [[("id", .num 1), ("name", .str "naming")]] rfl rfl
    (fun r h => by
      have hr : r = [("id", .num 1), ("name", .str "naming")] :=
        (Option.some.inj ((show _ = some _ from rfl).symm.trans h)).symm
      rw [hr]
      rfl)⟩

/-- C1 as stated fails, in six ways.  (a) Ruleset 1 is listed under the
configured name, the rule configuration has a member `ruleset_id` = 99, and
the single write is an update call whose `ruleset_id` is 99.  (b) A listing
answered with status 200 and the array `[null]`: no write.  (c) A listing
answered with status 200 and an object as data: no write.  (d) The listed
ruleset of the configured name has an id without string conversion: no
write.  (e) The configured name has no string conversion: `applyRuleset`
throws before the listing call.  (f) A listing answered with `[0]` and a
rule configuration without name: the names are strictly equal (both
`undefined`), and the write is the create call. -/
theorem applyRuleset_update_id_overridden :
    (∃ write answer,
      (applyRuleset seededRemote "city" "repo-a" overridingRule []).2 =
        [.applying "repo-a" overridingRule,
          .request (listRequest "city" "repo-a")
            (.response 200 (.arr [.obj [("id", .num 1), ("name", .str "naming")]])),
          .request write answer] ∧
      strictEq (Obj.get [("id", .num 1), ("name", .str "naming")] "name")
        (Obj.get overridingRule "name") = true ∧
      write.route = .updateRuleset ∧
      Obj.get write.params "ruleset_id" = .num 99 ∧
      Obj.get write.params "ruleset_id" ≠
        Obj.get [("id", .num 1), ("name", .str "naming")] "id") ∧
    applyRuleset (listingRemote (.arr [.null])) "city" "repo-a" namingRule [] =
      (.normal false, [.applying "repo-a" namingRule,
        .request (listRequest "city" "repo-a") (.response 200 (.arr [.null]))]) ∧
    applyRuleset (listingRemote (.obj [])) "city" "repo-a" namingRule [] =
      (.normal false, [.applying "repo-a" namingRule,
        .request (listRequest "city" "repo-a") (.response 200 (.obj []))]) ∧
    applyRuleset (listingRemote (.arr [.obj [("id", oddValue), ("name", .str "naming")]]))
        "city" "repo-a" namingRule [] =
      (.normal false, [.applying "repo-a" namingRule,
        .request (listRequest "city" "repo-a")
          (.response 200 (.arr [.obj [("id", oddValue), ("name", .str "naming")]]))]) ∧
    applyRuleset freshRemote "city" "repo-a" oddNameRule [] =
      (.throw typeError, [.applying "repo-a" oddNameRule]) ∧
    (strictEq .undefined (Obj.get namelessRule "name") = true ∧
      applyRuleset (listingRemote (.arr [.num 0])) "city" "repo-a" namelessRule [] =
        (.normal true, [.applying "repo-a" namelessRule,
          .request (listRequest "city" "repo-a") (.response 200 (.arr [.num 0])),
          .request (createRequest "city" "repo-a" namelessRule) (.response 200 .null)])) := by
  refine ⟨⟨updateRequest "city" "repo-a" (.num 1) overridingRule, .response 200 .null,
    rfl, rfl, rfl, rfl, ?_⟩, rfl, rfl, rfl, rfl, rfl, rfl⟩
  have h1 : Obj.get (updateRequest "city" "repo-a" (.num 1) overridingRule).params "ruleset_id"
      = .num 99 := rfl
  have h2 : Obj.get [("id", .num 1), ("name", .str "naming")] "id" = .num 1 := rfl
  rw [h1, h2]
  simp

/-- The `catch` block completes exactly on a thrown value that is neither
`undefined` nor `null`, whose message has a string conversion and whose
response data, if any, can be serialised. -/
theorem catchBlock_returns_iff (error : Thrown) :
    catchBlock error = .normal false ↔
      ∃ message response, error = .error message response ∧ message.printable = true ∧
        response ≠ some .unserialisable := by
  cases error with
  | undefined => simp [catchBlock]
  | null => simp [catchBlock]
  | error message response =>
    simp only [catchBlock, Thrown.error.injEq]
    cases hm : message.printable with
    | false =>
      simp only [Bool.false_eq_true, if_false]
      constructor
      · intro h
        cases h
      · rintro ⟨m, r, ⟨rfl, rfl⟩, h, -⟩
        rw [hm] at h
        cases h
    | true =>
      simp only [if_true]
      cases response with
      | none => exact ⟨fun _ => ⟨message, none, ⟨rfl, rfl⟩, hm, by simp⟩, fun _ => rfl⟩
      | some data =>
        cases data with
        | json v =>
          refine ⟨fun _ => ⟨message, some (.json v), ⟨rfl, rfl⟩, hm, by simp⟩, fun _ => ?_⟩
          simp only
          split <;> rfl
        | unserialisable =>
          simp only [ErrorData.present, if_true]
          constructor
          · intro h
            cases h
          · rintro ⟨m, r, ⟨rfl, rfl⟩, -, h⟩
            exact absurd rfl h

theorem handled_writeFailingRemote : Handled writeFailingRemote := by
  intro log req error h
  unfold writeFailingRemote at h
  split at h
  · cases h
  · cases h
    rfl

theorem handled_downRemote : Handled downRemote := by
  intro log req error h
  cases h
  rfl

theorem handled_partialRemote : Handled partialRemote := by
  intro log req error h
  unfold partialRemote at h
  split at h
  · cases h
  · split at h
    · split at h
      · cases h
        rfl
      · cases h
    · cases h

theorem catchBlock_ne_true (error : Thrown) : catchBlock error ≠ .normal true := by
  unfold catchBlock
  cases error with
  | undefined => simp
  | null => simp
  | error message response =>
    simp only
    split
    · cases response with
      | none => simp
      | some data =>
        simp only
        split
        · cases data <;> simp
        · simp
    · simp

theorem resultOf_true_iff (answer : Outcome) :
    resultOf answer = .normal true ↔ ∃ s d, answer = .response s d ∧ 200 ≤ s ∧ s < 300 := by
  cases answer with
  | throws error => simp [resultOf, catchBlock_ne_true]
  | response status data =>
    simp only [resultOf, Completion.normal.injEq, Bool.and_eq_true, decide_eq_true_eq,
      Outcome.response.injEq]
    constructor
    · intro h
      exact ⟨status, data, ⟨rfl, rfl⟩, h.1, h.2⟩
    · rintro ⟨s, d, ⟨rfl, rfl⟩, h1, h2⟩
      exact ⟨h1, h2⟩

theorem resultOf_normal {remote : Remote} (h : Handled remote) (log : List Event)
    (req : Request) : ∃ b, resultOf (remote log req) = .normal b := by
  cases ha : remote log req with
  | throws error => exact ⟨false, h log req error ha⟩
  | response status data => exact ⟨_, rfl⟩

/-- C2 (amended): `applyRuleset` returns `true` exactly when the listing call
was answered with a response and the single request that follows it, a write
call, was answered with a response whose status `s` satisfies
`200 ≤ s < 300`.  When the configured name has a string conversion and the
`catch` block can report every thrown value, `applyRuleset` returns a
boolean, so that it returns `false` in every other case. -/
theorem applyRuleset_true_iff (remote : Remote) (org repo : String) (ruleConfig : Obj)
    (log : List Event) :
    ((applyRuleset remote org repo ruleConfig log).1 = .normal true ↔
      ∃ status data write s d,
        remote (log ++ [.applying repo ruleConfig]) (listRequest org repo) =
          .response status data ∧
        write.isWrite = true ∧
        remote (log ++ [.applying repo ruleConfig,
          .request (listRequest org repo) (.response status data)]) write = .response s d ∧
        200 ≤ s ∧ s < 300 ∧
        (applyRuleset remote org repo ruleConfig log).2 =
          log ++ [.applying repo ruleConfig,
            .request (listRequest org repo) (.response status data),
            .request write (.response s d)]) ∧
    ((Obj.get ruleConfig "name").printable = true → Handled remote →
      ∃ b, (applyRuleset remote org repo ruleConfig log).1 = .normal b) := by
  rcases applyRuleset_cases remote org repo ruleConfig log with
    ⟨hn, h⟩ | ⟨hn, ⟨error, hl, h⟩ | ⟨status, data, hl, h⟩ | ⟨status, data, write, hl, hw, h⟩⟩
  · rw [h]
    refine ⟨?_, fun hp => by rw [hn] at hp; cases hp⟩
    simp
  · rw [h]
    refine ⟨?_, fun _ hr => ⟨false, hr _ _ error hl⟩⟩
    simp [catchBlock_ne_true]
  · rw [h]
    refine ⟨?_, fun _ _ => ⟨false, rfl⟩⟩
    simp
  · rw [h]
    refine ⟨?_, fun _ hr => resultOf_normal hr _ _⟩
    simp only [resultOf_true_iff, List.append_assoc, List.cons_append, List.nil_append]
    have hwr : write.isWrite = true := by
      rcases hw with ⟨_, _, _, rfl⟩ | ⟨_, _, _, _, _, _, rfl⟩ <;> rfl
    constructor
    · rintro ⟨s, d, hsd, h1, h2⟩
      exact ⟨status, data, write, s, d, hl, hwr, hsd, h1, h2, by rw [hsd]⟩
    · rintro ⟨status1, data1, write1, s, d, hl1, -, -, h1, h2, hlog⟩
      refine ⟨s, d, ?_, h1, h2⟩
      simp only [List.append_cancel_left_eq, List.cons.injEq, Event.request.injEq, and_true,
        true_and] at hlog
      exact hlog.2.2

/-- Witness of C2 (amended): the listing is answered, the create call throws
an error with a message; `applyRuleset` returns a boolean. -/
theorem applyRuleset_true_iff_witness :
    (Obj.get namingRule "name").printable = true ∧ Handled writeFailingRemote ∧
    ∃ b, (applyRuleset writeFailingRemote "city" "repo-a" namingRule []).1 = .normal b :=
  ⟨rfl, handled_writeFailingRemote,
    (applyRuleset_true_iff writeFailingRemote "city" "repo-a" namingRule []).2 rfl
      handled_writeFailingRemote⟩

/-- C2 as stated fails: when the listing call rejects with `undefined`, or
with an error whose response data cannot be serialised, or when the
configured name has no string conversion, `applyRuleset` does not return
`false`: it throws. -/
theorem applyRuleset_throws_not_false :
    applyRuleset undefinedRemote "city" "repo-a" namingRule [] =
      (.throw typeError, [.applying "repo-a" namingRule,
        .request (listRequest "city" "repo-a") (.throws .undefined)]) ∧
    (applyRuleset undefinedRemote "city" "repo-a" namingRule []).1 ≠ .normal false ∧
    applyRuleset cyclicRemote "city" "repo-a" namingRule [] =
      (.throw typeError, [.applying "repo-a" namingRule,
        .request (listRequest "city" "repo-a")
          (.throws (.error (.str "failed") (some .unserialisable)))]) ∧
    (applyRuleset cyclicRemote "city" "repo-a" namingRule []).1 ≠ .normal false ∧
    applyRuleset seededRemote "city" "repo-a" oddNameRule [] =
      (.throw typeError, [.applying "repo-a" oddNameRule]) ∧
    (applyRuleset seededRemote "city" "repo-a" oddNameRule []).1 ≠ .normal false := by
  have h1 : (applyRuleset undefinedRemote "city" "repo-a" namingRule []).1 =
      .throw typeError := rfl
  have h2 : (applyRuleset cyclicRemote "city" "repo-a" namingRule []).1 =
      .throw typeError := rfl
  have h3 : (applyRuleset seededRemote "city" "repo-a" oddNameRule []).1 =
      .throw typeError := rfl
  refine ⟨rfl, ?_, rfl, ?_, rfl, ?_⟩
  · rw [h1]
    simp
  · rw [h2]
    simp
  · rw [h3]
    simp

/-- C3 (amended): when the configured name has a string conversion and the
`catch` block can report every thrown value, `applyRuleset` completes
normally, and when one of its calls (listing, update or create) throws, the
result is `false` and the throwing call is the last thing `applyRuleset`
did. -/
theorem applyRuleset_never_throws (remote : Remote) (org repo : String) (ruleConfig : Obj)
    (log : List Event) (hname : (Obj.get ruleConfig "name").printable = true)
    (hremote : Handled remote) :
    (∃ b, (applyRuleset remote org repo ruleConfig log).1 = .normal b) ∧
    ∀ new req error, (applyRuleset remote org repo ruleConfig log).2 = log ++ new →
      Event.request req (.throws error) ∈ new →
      (applyRuleset remote org repo ruleConfig log).1 = .normal false ∧
        ∃ earlier, new = earlier ++ [.request req (.throws error)] := by
  rcases applyRuleset_cases remote org repo ruleConfig log with
    ⟨hn, -⟩ | ⟨-, ⟨error, hl, h⟩ | ⟨status, data, hl, h⟩ | ⟨status, data, write, hl, -, h⟩⟩
  · rw [hn] at hname
    cases hname
  · refine ⟨⟨false, by rw [h, hremote _ _ error hl]⟩, ?_⟩
    intro new req err hnew hmem
    rw [h] at hnew ⊢
    simp only [List.append_assoc, List.cons_append, List.nil_append,
      List.append_cancel_left_eq] at hnew
    subst hnew
    simp at hmem
    refine ⟨hremote _ _ error hl, [.applying repo ruleConfig], ?_⟩
    rw [hmem.1, hmem.2]
    rfl
  · refine ⟨⟨false, by rw [h]⟩, ?_⟩
    intro new req err hnew hmem
    rw [h] at hnew
    simp only [List.append_assoc, List.cons_append, List.nil_append,
      List.append_cancel_left_eq] at hnew
    subst hnew
    simp at hmem
  · obtain ⟨b, hb⟩ := resultOf_normal hremote
      (log ++ [.applying repo ruleConfig] ++
        [.request (listRequest org repo) (.response status data)]) write
    refine ⟨⟨b, by rw [h, hb]⟩, ?_⟩
    intro new req err hnew hmem
    rw [h] at hnew ⊢
    simp only [List.append_assoc, List.cons_append, List.nil_append,
      List.append_cancel_left_eq] at hnew
    subst hnew
    simp at hmem
    obtain ⟨hreq, hans⟩ := hmem
    simp only [List.append_assoc, List.cons_append, List.nil_append] at hans ⊢
    refine ⟨?_, [.applying repo ruleConfig,
      .request (listRequest org repo) (.response status data)], ?_⟩
    · rw [← hans]
      exact hremote _ _ err hans.symm
    · rw [← hans, hreq]
      rfl

/-- Witness of C3 (amended): the listing is answered, the create call throws
an error; the result is `false` and the create call is the last event. -/
theorem applyRuleset_never_throws_witness :
    (Obj.get namingRule "name").printable = true ∧ Handled writeFailingRemote ∧
      (applyRuleset writeFailingRemote "city" "repo-a" namingRule []).2 =
        [] ++ [.applying "repo-a" namingRule,
          .request (listRequest "city" "repo-a") (.response 200 (.arr [])),
          .request (createRequest "city" "repo-a" namingRule) (.throws networkError)] ∧
      (applyRuleset writeFailingRemote "city" "repo-a" namingRule []).1 = .normal false ∧
      ∃ earlier, [Event.applying "repo-a" namingRule,
          .request (listRequest "city" "repo-a") (.response 200 (.arr [])),
          .request (createRequest "city" "repo-a" namingRule) (.throws networkError)] =
        earlier ++ [.request (createRequest "city" "repo-a" namingRule)
          (.throws networkError)] :=
  ⟨rfl, handled_writeFailingRemote, rfl,
    (applyRuleset_never_throws writeFailingRemote "city" "repo-a" namingRule [] rfl
      handled_writeFailingRemote).2
    [.applying "repo-a" namingRule,
      .request (listRequest "city" "repo-a") (.response 200 (.arr [])),
      .request (createRequest "city" "repo-a" namingRule) (.throws networkError)]
    (createRequest "city" "repo-a" namingRule) networkError rfl
    (List.mem_cons_of_mem _ (List.mem_cons_of_mem _ (List.mem_singleton.2 rfl)))⟩

/-- C3 as stated fails: `applyRuleset` propagates an error when the create
call rejects with `null`, when the listing call rejects with an error whose
message has no string conversion, and, before any call, when the configured
name has no string conversion. -/
theorem applyRuleset_propagates :
    applyRuleset writeNullRemote "city" "repo-a" namingRule [] =
      (.throw typeError, [.applying "repo-a" namingRule,
        .request (listRequest "city" "repo-a") (.response 200 (.arr [])),
        .request (createRequest "city" "repo-a" namingRule) (.throws .null)]) ∧
    applyRuleset oddMessageRemote "city" "repo-a" namingRule [] =
      (.throw typeError, [.applying "repo-a" namingRule,
        .request (listRequest "city" "repo-a") (.throws (.error oddValue none))]) ∧
    applyRuleset downRemote "city" "repo-a" oddNameRule [] =
      (.throw typeError, [.applying "repo-a" oddNameRule]) :=
  ⟨rfl, rfl, rfl⟩

/-- What a call of `applyRuleset` appends to the log. -/
theorem applyRuleset_log (remote : Remote) (org repo : String) (ruleConfig : Obj)
    (log : List Event) :
    ∃ steps, (applyRuleset remote org repo ruleConfig log).2 =
        log ++ Event.applying repo ruleConfig :: steps ∧
      CallSteps (listRequest org repo) steps := by
  rcases applyRuleset_cases remote org repo ruleConfig log with
    ⟨-, h⟩ | ⟨-, ⟨error, -, h⟩ | ⟨status, data, -, h⟩ | ⟨status, data, write, -, hw, h⟩⟩
  · exact ⟨[], by rw [h], Or.inl rfl⟩
  · exact ⟨[.request (listRequest org repo) (.throws error)], by rw [h]; simp,
      Or.inr (Or.inl ⟨_, rfl⟩)⟩
  · exact ⟨[.request (listRequest org repo) (.response status data)], by rw [h]; simp,
      Or.inr (Or.inl ⟨_, rfl⟩)⟩
  · refine ⟨[.request (listRequest org repo) (.response status data),
      .request write (remote (log ++ [.applying repo ruleConfig] ++
        [.request (listRequest org repo) (.response status data)]) write)],
      by rw [h]; simp, Or.inr (Or.inr ⟨_, write, _, rfl, ?_⟩)⟩
    rcases hw with ⟨_, _, _, rfl⟩ | ⟨_, _, _, _, _, _, rfl⟩ <;> rfl

/-- When `applyRuleset` returns, under the two conditions on the configured
name and on the thrown values it always does. -/
theorem applyRuleset_returns (remote : Remote) (org repo : String) (ruleConfig : Obj)
    (log : List Event) (hname : (Obj.get ruleConfig "name").printable = true)
    (hremote : Handled remote) :
    ∃ b log1, applyRuleset remote org repo ruleConfig log = (.normal b, log1) := by
  rcases applyRuleset_cases remote org repo ruleConfig log with
    ⟨hn, -⟩ | ⟨-, ⟨error, hl, h⟩ | ⟨status, data, -, h⟩ | ⟨status, data, write, -, -, h⟩⟩
  · rw [hn] at hname
    cases hname
  · exact ⟨false, _, by rw [h, hremote _ _ error hl]⟩
  · exact ⟨false, _, h⟩
  · obtain ⟨b, hb⟩ := resultOf_normal hremote
      (log ++ [.applying repo ruleConfig] ++
        [.request (listRequest org repo) (.response status data)]) write
    exact ⟨b, _, by rw [h, hb]⟩

/-- A call of `applyRuleset` that returns `true` ends with a request that
got a 2xx answer. -/
theorem applyRuleset_true_request (remote : Remote) (org repo : String) (ruleConfig : Obj)
    (log : List Event) (h : (applyRuleset remote org repo ruleConfig log).1 = .normal true) :
    ∃ earlier write answer,
      (applyRuleset remote org repo ruleConfig log).2 =
        log ++ (earlier ++ [Event.request write answer]) ∧ answer.ok = true := by
  rcases applyRuleset_cases remote org repo ruleConfig log with
    ⟨-, h1⟩ | ⟨-, ⟨error, -, h1⟩ | ⟨status, data, -, h1⟩ | ⟨status, data, write, -, -, h1⟩⟩
  · rw [h1] at h
    cases h
  · rw [h1] at h
    exact absurd h (catchBlock_ne_true error)
  · rw [h1] at h
    cases h
  · rw [h1] at h ⊢
    obtain ⟨s, d, hsd, hs1, hs2⟩ := (resultOf_true_iff _).1 h
    refine ⟨[.applying repo ruleConfig,
      .request (listRequest org repo) (.response status data)], write, .response s d, ?_, ?_⟩
    · rw [hsd]
      simp
    · simp [Outcome.ok, hs1, hs2]

theorem ReadBeforeWrite.append {listing : Request} {l1 l2 : List Event}
    (h1 : ReadBeforeWrite listing l1) (h2 : ReadBeforeWrite listing l2) :
    ReadBeforeWrite listing (l1 ++ l2) := by
  intro before after write answer heq hw
  rcases List.append_eq_append_iff.1 heq with ⟨mid, hb, hl2⟩ | ⟨mid, hl1, hrest⟩
  · obtain ⟨earlier, listed, he⟩ := h2 mid after write answer hl2 hw
    exact ⟨l1 ++ earlier, listed, by rw [hb, he, List.append_assoc]⟩
  · cases mid with
    | nil =>
      simp only [List.nil_append] at hrest
      obtain ⟨earlier, listed, he⟩ := h2 [] after write answer (by simpa using hrest.symm) hw
      simp at he
    | cons x rest =>
      simp only [List.cons_append, List.cons.injEq] at hrest
      obtain ⟨rfl, -⟩ := hrest
      exact h1 before rest write answer hl1 hw

theorem ReadBeforeWrite.single {listing : Request} {e : Event}
    (he : ∀ write answer, e = Event.request write answer → write.isWrite = false) :
    ReadBeforeWrite listing [e] := by
  intro before after write answer heq hw
  cases before with
  | nil =>
    simp only [List.nil_append, List.cons.injEq] at heq
    rw [he write answer heq.1] at hw
    cases hw
  | cons x rest =>
    simp at heq

theorem ReadBeforeWrite.nil (listing : Request) : ReadBeforeWrite listing [] := by
  intro before after write answer heq hw
  simp at heq

theorem CallSteps.readBeforeWrite {listing : Request} {steps : List Event}
    (hl : listing.isWrite = false) (h : CallSteps listing steps) :
    ReadBeforeWrite listing steps := by
  rcases h with rfl | ⟨listed, rfl⟩ | ⟨listed, w, a, rfl, -⟩
  · exact ReadBeforeWrite.nil listing
  · apply ReadBeforeWrite.single
    intro write answer h
    simp only [Event.request.injEq] at h
    rw [← h.1]
    exact hl
  · intro before after write answer heq hw
    cases before with
    | nil =>
      simp only [List.nil_append, List.cons.injEq, Event.request.injEq] at heq
      rw [← heq.1.1, hl] at hw
      cases hw
    | cons x rest =>
      cases rest with
      | nil =>
        simp only [List.cons_append, List.nil_append, List.cons.injEq] at heq
        exact ⟨[], listed, by rw [heq.1]; rfl⟩
      | cons y rest2 =>
        simp at heq

theorem CallSteps.requests_le {listing : Request} {steps : List Event}
    (h : CallSteps listing steps) : (requestsOf steps).length ≤ 2 := by
  rcases h with rfl | ⟨listed, rfl⟩ | ⟨listed, w, a, rfl, -⟩ <;> simp [requestsOf]

theorem CallSteps.applyCalls_eq {listing : Request} {steps : List Event}
    (h : CallSteps listing steps) : applyCalls steps = [] := by
  rcases h with rfl | ⟨listed, rfl⟩ | ⟨listed, w, a, rfl, -⟩ <;> rfl

theorem CallSteps.processed_eq {listing : Request} {steps : List Event}
    (h : CallSteps listing steps) : processed steps = [] := by
  rcases h with rfl | ⟨listed, rfl⟩ | ⟨listed, w, a, rfl, -⟩ <;> rfl

/-- What `processRepository` appends to the log: its entry, the first call of
`applyRuleset`, and the second call when the first one returned. -/
theorem processRepository_log (remote : Remote) (s : Script) (repo : String) (w : World) :
    ∃ steps1 rest,
      (processRepository remote s repo w).2.log =
        w.log ++ (Event.processing repo :: Event.applying repo s.branchNamingRule :: steps1) ++
          rest ∧
      CallSteps (listRequest s.org repo) steps1 ∧
      ((rest = [] ∧ ∃ error,
          (applyRuleset remote s.org repo s.branchNamingRule
            (w.log ++ [.processing repo])).1 = .throw error) ∨
        (∃ steps2, rest = Event.applying repo s.preventDeleteRule :: steps2 ∧
          CallSteps (listRequest s.org repo) steps2 ∧
          ∃ b, (applyRuleset remote s.org repo s.branchNamingRule
            (w.log ++ [.processing repo])).1 = .normal b)) := by
  obtain ⟨steps1, h1, hs1⟩ :=
    applyRuleset_log remote s.org repo s.branchNamingRule (w.log ++ [.processing repo])
  cases hr1 : applyRuleset remote s.org repo s.branchNamingRule
      (w.log ++ [.processing repo]) with
  | mk c1 l1 =>
    rw [hr1] at h1
    simp only at h1
    subst h1
    cases c1 with
    | throw error =>
      refine ⟨steps1, [], ?_, hs1, Or.inl ⟨rfl, error, rfl⟩⟩
      simp only [processRepository, hr1]
      simp
    | normal b1 =>
      obtain ⟨steps2, h2, hs2⟩ := applyRuleset_log remote s.org repo s.preventDeleteRule
        (w.log ++ [.processing repo] ++ Event.applying repo s.branchNamingRule :: steps1)
      refine ⟨steps1, Event.applying repo s.preventDeleteRule :: steps2, ?_, hs1,
        Or.inr ⟨steps2, rfl, hs2, b1, rfl⟩⟩
      cases hr2 : applyRuleset remote s.org repo s.preventDeleteRule
          (w.log ++ [.processing repo] ++ Event.applying repo s.branchNamingRule :: steps1) with
      | mk c2 l2 =>
        rw [hr2] at h2
        simp only at h2
        subst h2
        cases c2 <;> simp only [processRepository, hr1, hr2] <;> simp

/-- C6 (amended): when `processRepository` completes normally, both of its
`applyRuleset` calls returned and exactly one of the two counters moved by
one: `rulesApplied` when at least one call returned `true`, `rulesFailed`
when both returned `false`; the other counter and `totalRepos` are
unchanged. -/
theorem processRepository_counts (remote : Remote) (s : Script) (repo : String) (w : World)
    (h : (processRepository remote s repo w).1 = .normal ()) :
    ∃ b1 log1 b2 log2,
      applyRuleset remote s.org repo s.branchNamingRule (w.log ++ [.processing repo]) =
        (.normal b1, log1) ∧
      applyRuleset remote s.org repo s.preventDeleteRule log1 = (.normal b2, log2) ∧
      (processRepository remote s repo w).2.counters.totalRepos = w.counters.totalRepos ∧
      ((b1 = true ∨ b2 = true) →
        (processRepository remote s repo w).2.counters.rulesApplied =
          w.counters.rulesApplied + 1 ∧
        (processRepository remote s repo w).2.counters.rulesFailed = w.counters.rulesFailed) ∧
      ((b1 = false ∧ b2 = false) →
        (processRepository remote s repo w).2.counters.rulesApplied = w.counters.rulesApplied ∧
        (processRepository remote s repo w).2.counters.rulesFailed =
          w.counters.rulesFailed + 1) := by
  cases hr1 : applyRuleset remote s.org repo s.branchNamingRule
      (w.log ++ [.processing repo]) with
  | mk c1 log1 =>
    cases c1 with
    | throw error => simp [processRepository, hr1] at h
    | normal b1 =>
      cases hr2 : applyRuleset remote s.org repo s.preventDeleteRule log1 with
      | mk c2 log2 =>
        cases c2 with
        | throw error => simp [processRepository, hr1, hr2] at h
        | normal b2 =>
          refine ⟨b1, log1, b2, log2, rfl, hr2, ?_⟩
          simp only [processRepository, hr1, hr2]
          cases b1 <;> cases b2 <;> simp [count]

/-- Witness of C6 (amended): the naming rule is created, the creation of the
deletion rule throws an error; the repository is counted as applied and not
as failed. -/
theorem processRepository_counts_witness :
    (processRepository partialRemote cityScript "repo-a" (initial ["repo-a"])).1 =
      .normal () ∧
    (applyRuleset partialRemote "city" "repo-a" namingRule
      ((initial ["repo-a"]).log ++ [.processing "repo-a"])).1 = .normal true ∧
    (processRepository partialRemote cityScript "repo-a"
      (initial ["repo-a"])).2.counters.rulesApplied = 0 + 1 ∧
    (processRepository partialRemote cityScript "repo-a"
      (initial ["repo-a"])).2.counters.rulesFailed = 0 := by
  obtain ⟨b1, log1, b2, log2, h1, -, -, happlied, -⟩ :=
    processRepository_counts partialRemote cityScript "repo-a" (initial ["repo-a"]) rfl
  have hb1 : Completion.normal b1 = Completion.normal true :=
    (congrArg Prod.fst h1).symm.trans rfl
  exact ⟨rfl, rfl, happlied (Or.inl (Completion.normal.inj hb1))⟩

/-- C6 as stated fails: when the first listing call rejects with
`undefined`, `applyRuleset` throws, `processRepository` ends there, and
neither counter moves. -/
theorem processRepository_no_count :
    (processRepository undefinedRemote cityScript "repo-a" (initial ["repo-a"])).1 =
      .throw typeError ∧
    (processRepository undefinedRemote cityScript "repo-a"
      (initial ["repo-a"])).2.counters.rulesApplied = 0 ∧
    (processRepository undefinedRemote cityScript "repo-a"
      (initial ["repo-a"])).2.counters.rulesFailed = 0 :=
  ⟨rfl, rfl, rfl⟩

/-- C7 (amended): `processRepository` calls `applyRuleset` first with the
branch-naming rule; when that call returns, `true` or `false`, it calls
`applyRuleset` a second time, with the deletion-prevention rule, and makes no
further call; when the first call throws, it makes no second call. -/
theorem processRepository_applies_both (remote : Remote) (s : Script) (repo : String)
    (w : World) :
    ∃ new, (processRepository remote s repo w).2.log = w.log ++ new ∧
      (∀ b, (applyRuleset remote s.org repo s.branchNamingRule
          (w.log ++ [.processing repo])).1 = .normal b →
        applyCalls new = [(repo, s.branchNamingRule), (repo, s.preventDeleteRule)]) ∧
      (∀ error, (applyRuleset remote s.org repo s.branchNamingRule
          (w.log ++ [.processing repo])).1 = .throw error →
        applyCalls new = [(repo, s.branchNamingRule)]) := by
  obtain ⟨steps1, rest, h, hs1, hrest⟩ := processRepository_log remote s repo w
  refine ⟨_, by rw [h, List.append_assoc], ?_, ?_⟩
  · intro b hb
    rcases hrest with ⟨-, error, he⟩ | ⟨steps2, rfl, hs2, -⟩
    · rw [hb] at he
      cases he
    · have e1 := hs1.applyCalls_eq
      have e2 := hs2.applyCalls_eq
      simp only [applyCalls, List.filterMap_append, List.filterMap_cons] at e1 e2 ⊢
      simp [e1, e2]
  · intro error he
    rcases hrest with ⟨rfl, -⟩ | ⟨steps2, -, -, b, hb⟩
    · have e1 := hs1.applyCalls_eq
      simp only [applyCalls, List.filterMap_append, List.filterMap_cons] at e1 ⊢
      simp [e1]
    · rw [he] at hb
      cases hb

/-- Witness of C7 (amended): the first call returns `true`, the second one
is made (and returns `false`). -/
theorem processRepository_applies_both_witness :
    (applyRuleset partialRemote "city" "repo-a" namingRule
      ((initial ["repo-a"]).log ++ [.processing "repo-a"])).1 = .normal true ∧
    applyCalls (processRepository partialRemote cityScript "repo-a"
      (initial ["repo-a"])).2.log = [("repo-a", namingRule), ("repo-a", deletionRule)] := by
  obtain ⟨new, hlog, hboth, -⟩ :=
    processRepository_applies_both partialRemote cityScript "repo-a" (initial ["repo-a"])
  refine ⟨rfl, ?_⟩
  rw [hlog]
  exact hboth true rfl

/-- C7 as stated fails: when the first listing call rejects with
`undefined`, the first `applyRuleset` call throws and `processRepository`
calls `applyRuleset` only once. -/
theorem processRepository_applies_once :
    applyCalls (processRepository undefinedRemote cityScript "repo-a"
      (initial ["repo-a"])).2.log = [("repo-a", namingRule)] ∧
    (requestsOf (processRepository undefinedRemote cityScript "repo-a"
      (initial ["repo-a"])).2.log).map Request.route = [.listRulesets] :=
  ⟨rfl, rfl⟩

/-- C8 (amended): processing one repository issues at most four requests,
and every write request comes directly after a listing request for that
repository. -/
theorem processRepository_requests (remote : Remote) (s : Script) (repo : String)
    (w : World) :
    ∃ new, (processRepository remote s repo w).2.log = w.log ++ new ∧
      (requestsOf new).length ≤ 4 ∧
      ReadBeforeWrite (listRequest s.org repo) new := by
  obtain ⟨steps1, rest, h, hs1, hrest⟩ := processRepository_log remote s repo w
  have hp : ReadBeforeWrite (listRequest s.org repo) [Event.processing repo] :=
    ReadBeforeWrite.single (by intro _ _ h; cases h)
  have hn : ReadBeforeWrite (listRequest s.org repo)
      [Event.applying repo s.branchNamingRule] :=
    ReadBeforeWrite.single (by intro _ _ h; cases h)
  have hd : ReadBeforeWrite (listRequest s.org repo)
      [Event.applying repo s.preventDeleteRule] :=
    ReadBeforeWrite.single (by intro _ _ h; cases h)
  have hlw : (listRequest s.org repo).isWrite = false := rfl
  have h1 := hs1.readBeforeWrite hlw
  have e1 := hs1.requests_le
  refine ⟨_, by rw [h, List.append_assoc], ?_, ?_⟩
  · rcases hrest with ⟨rfl, -⟩ | ⟨steps2, rfl, hs2, -⟩
    · simp only [requestsOf, List.filterMap_append, List.filterMap_cons, List.length_append,
        List.length_cons, List.filterMap_nil, List.length_nil] at e1 ⊢
      omega
    · have e2 := hs2.requests_le
      simp only [requestsOf, List.filterMap_append, List.filterMap_cons, List.length_append,
        List.length_cons] at e1 e2 ⊢
      omega
  · rcases hrest with ⟨rfl, -⟩ | ⟨steps2, rfl, hs2, -⟩
    · exact (hp.append (hn.append h1)).append (ReadBeforeWrite.nil _)
    · exact (hp.append (hn.append h1)).append (hd.append (hs2.readBeforeWrite hlw))

/-- C8 as stated fails: on a repository without rulesets, processing it
issues four requests (listing, create, listing, create), not at most two. -/
theorem processRepository_four_requests :
    (requestsOf (processRepository freshRemote cityScript "repo-a"
        (initial ["repo-a"])).2.log).map Request.route =
      [.listRulesets, .createRuleset, .listRulesets, .createRuleset] ∧
    ¬ (requestsOf (processRepository freshRemote cityScript "repo-a"
        (initial ["repo-a"])).2.log).length ≤ 2 := by
  have h : (requestsOf (processRepository freshRemote cityScript "repo-a"
      (initial ["repo-a"])).2.log).length = 4 := rfl
  refine ⟨rfl, ?_⟩
  rw [h]
  decide

/-- The three ways a call of `processRepository` ends: the first call of
`applyRuleset` throws, the second one throws, or both return and one counter
moves. -/
theorem processRepository_cases (remote : Remote) (s : Script) (repo : String) (w : World) :
    ∃ steps1 : List Event, CallSteps (listRequest s.org repo) steps1 ∧
      (applyRuleset remote s.org repo s.branchNamingRule (w.log ++ [.processing repo])).2 =
        w.log ++ (Event.processing repo :: Event.applying repo s.branchNamingRule :: steps1) ∧
      ((∃ error,
          (applyRuleset remote s.org repo s.branchNamingRule
            (w.log ++ [.processing repo])).1 = .throw error ∧
          processRepository remote s repo w =
            (.throw error, World.mk w.counters (w.log ++
              (Event.processing repo :: Event.applying repo s.branchNamingRule :: steps1)))) ∨
        ∃ (b1 : Bool) (c2 : Completion Bool) (steps2 : List Event),
          CallSteps (listRequest s.org repo) steps2 ∧
          (applyRuleset remote s.org repo s.branchNamingRule
            (w.log ++ [.processing repo])).1 = .normal b1 ∧
          applyRuleset remote s.org repo s.preventDeleteRule
              (w.log ++ (Event.processing repo ::
                Event.applying repo s.branchNamingRule :: steps1)) =
            (c2, w.log ++
              (Event.processing repo :: Event.applying repo s.branchNamingRule :: steps1) ++
              (Event.applying repo s.preventDeleteRule :: steps2)) ∧
          ((∃ error, c2 = .throw error ∧
              processRepository remote s repo w =
                (.throw error, World.mk w.counters (w.log ++
                  (Event.processing repo :: Event.applying repo s.branchNamingRule :: steps1) ++
                  (Event.applying repo s.preventDeleteRule :: steps2)))) ∨
            (∃ b2, c2 = .normal b2 ∧
              processRepository remote s repo w =
                (.normal (),
                  World.mk (count (if (b1 || b2) = true then 1 else 0) w.counters)
                    (w.log ++
                      (Event.processing repo ::
                        Event.applying repo s.branchNamingRule :: steps1) ++
                      (Event.applying repo s.preventDeleteRule :: steps2)))))) := by
  obtain ⟨steps1, h1, hs1⟩ :=
    applyRuleset_log remote s.org repo s.branchNamingRule (w.log ++ [.processing repo])
  have h1n : (applyRuleset remote s.org repo s.branchNamingRule
      (w.log ++ [.processing repo])).2 =
      w.log ++ (Event.processing repo :: Event.applying repo s.branchNamingRule :: steps1) := by
    rw [h1]
    simp
  refine ⟨steps1, hs1, h1n, ?_⟩
  cases hr1 : applyRuleset remote s.org repo s.branchNamingRule
      (w.log ++ [.processing repo]) with
  | mk c1 l1 =>
    rw [hr1] at h1n
    simp only at h1n
    subst h1n
    cases c1 with
    | throw error =>
      left
      refine ⟨error, rfl, ?_⟩
      simp only [processRepository, hr1]
    | normal b1 =>
      right
      obtain ⟨steps2, h2, hs2⟩ := applyRuleset_log remote s.org repo s.preventDeleteRule
        (w.log ++ (Event.processing repo :: Event.applying repo s.branchNamingRule :: steps1))
      cases hr2 : applyRuleset remote s.org repo s.preventDeleteRule
          (w.log ++ (Event.processing repo ::
            Event.applying repo s.branchNamingRule :: steps1)) with
      | mk c2 l2 =>
        rw [hr2] at h2
        simp only at h2
        subst h2
        refine ⟨b1, c2, steps2, hs2, rfl, rfl, ?_⟩
        cases c2 with
        | throw error =>
          left
          refine ⟨error, rfl, ?_⟩
          simp only [processRepository, hr1, hr2]
        | normal b2 =>
          right
          refine ⟨b2, rfl, ?_⟩
          simp only [processRepository, hr1, hr2]
          cases b1 <;> cases b2 <;> simp [count]

theorem count_totalRepos (k : Nat) (c : Counters) : (count k c).totalRepos = c.totalRepos := by
  unfold count
  split <;> rfl

theorem count_sum (k : Nat) (c : Counters) :
    (count k c).rulesApplied + (count k c).rulesFailed =
      c.rulesApplied + c.rulesFailed + 1 := by
  unfold count
  split <;> simp only [] <;> omega

/-- A call of `processRepository` that completes normally: the repository is
logged once, `totalRepos` is kept and exactly one counter moved by one. -/
theorem processRepository_normal_spec {remote : Remote} {s : Script} {repo : String}
    {w w1 : World} (h : processRepository remote s repo w = (.normal (), w1)) :
    processed w1.log = processed w.log ++ [repo] ∧
    w1.counters.totalRepos = w.counters.totalRepos ∧
    w1.counters.rulesApplied + w1.counters.rulesFailed =
      w.counters.rulesApplied + w.counters.rulesFailed + 1 := by
  obtain ⟨steps1, hs1, -, hc⟩ := processRepository_cases remote s repo w
  rcases hc with ⟨error, -, hp⟩ | ⟨b1, c2, steps2, hs2, -, -, ⟨error, -, hp⟩ | ⟨b2, -, hp⟩⟩
  · rw [hp] at h
    cases h
  · rw [hp] at h
    cases h
  · rw [hp] at h
    simp only [Prod.mk.injEq, true_and] at h
    subst h
    refine ⟨?_, count_totalRepos _ _, count_sum _ _⟩
    have e1 := hs1.processed_eq
    have e2 := hs2.processed_eq
    simp only [processed, List.filterMap_append, List.filterMap_cons] at e1 e2 ⊢
    simp [e1, e2]

theorem processRepository_totalRepos (remote : Remote) (s : Script) (repo : String)
    (w : World) :
    (processRepository remote s repo w).2.counters.totalRepos = w.counters.totalRepos := by
  obtain ⟨steps1, -, -, hc⟩ := processRepository_cases remote s repo w
  rcases hc with ⟨error, -, hp⟩ | ⟨b1, c2, steps2, -, -, -, ⟨error, -, hp⟩ | ⟨b2, -, hp⟩⟩
  · rw [hp]
  · rw [hp]
  · rw [hp]
    exact count_totalRepos _ _

/-- With configured names that have a string conversion and thrown values
the `catch` block can report, `processRepository` completes normally. -/
theorem processRepository_returns (remote : Remote) (s : Script) (repo : String) (w : World)
    (hn1 : (Obj.get s.branchNamingRule "name").printable = true)
    (hn2 : (Obj.get s.preventDeleteRule "name").printable = true)
    (hremote : Handled remote) :
    ∃ w1, processRepository remote s repo w = (.normal (), w1) := by
  obtain ⟨steps1, -, -, hc⟩ := processRepository_cases remote s repo w
  rcases hc with ⟨error, he, -⟩ | ⟨b1, c2, steps2, -, -, h2, ⟨error, he, -⟩ | ⟨b2, -, hp⟩⟩
  · obtain ⟨b, l, hb⟩ := applyRuleset_returns remote s.org repo s.branchNamingRule
      (w.log ++ [.processing repo]) hn1 hremote
    rw [hb] at he
    cases he
  · obtain ⟨b, l, hb⟩ := applyRuleset_returns remote s.org repo s.preventDeleteRule
      (w.log ++ (Event.processing repo :: Event.applying repo s.branchNamingRule :: steps1))
      hn2 hremote
    rw [hb, he] at h2
    cases h2
  · exact ⟨_, hp⟩

theorem processAll_normal_spec (remote : Remote) (s : Script) (repos : List String) :
    ∀ w w1 : World, processAll remote s repos w = (.normal (), w1) →
      processed w1.log = processed w.log ++ repos ∧
      w1.counters.totalRepos = w.counters.totalRepos ∧
      w1.counters.rulesApplied + w1.counters.rulesFailed =
        w.counters.rulesApplied + w.counters.rulesFailed + repos.length := by
  induction repos with
  | nil =>
    intro w w1 h
    simp only [processAll, Prod.mk.injEq, true_and] at h
    subst h
    simp
  | cons repo rest ih =>
    intro w w1 h
    simp only [processAll] at h
    cases hp : processRepository remote s repo w with
    | mk c w0 =>
      rw [hp] at h
      cases c with
      | throw error => cases h
      | normal u =>
        simp only at h
        obtain ⟨h1, h2, h3⟩ := processRepository_normal_spec hp
        obtain ⟨k1, k2, k3⟩ := ih w0 w1 h
        refine ⟨?_, ?_, ?_⟩
        · rw [k1, h1]
          simp
        · rw [k2, h2]
        · rw [k3, h3, List.length_cons]
          omega

theorem processAll_totalRepos (remote : Remote) (s : Script) (repos : List String) :
    ∀ w : World, (processAll remote s repos w).2.counters.totalRepos =
      w.counters.totalRepos := by
  induction repos with
  | nil => intro w; rfl
  | cons repo rest ih =>
    intro w
    simp only [processAll]
    have ht := processRepository_totalRepos remote s repo w
    cases hp : processRepository remote s repo w with
    | mk c w0 =>
      rw [hp] at ht
      cases c with
      | throw error => exact ht
      | normal u =>
        simp only
        rw [ih w0]
        exact ht

theorem processAll_returns (remote : Remote) (s : Script) (repos : List String)
    (hn1 : (Obj.get s.branchNamingRule "name").printable = true)
    (hn2 : (Obj.get s.preventDeleteRule "name").printable = true)
    (hremote : Handled remote) :
    ∀ w : World, ∃ w1, processAll remote s repos w = (.normal (), w1) := by
  induction repos with
  | nil => intro w; exact ⟨w, rfl⟩
  | cons repo rest ih =>
    intro w
    obtain ⟨w0, h0⟩ := processRepository_returns remote s repo w hn1 hn2 hremote
    obtain ⟨w1, h1⟩ := ih w0
    exact ⟨w1, by simp only [processAll, h0]; exact h1⟩

theorem processAll_append (remote : Remote) (s : Script) (before after : List String) :
    ∀ w w1 : World, processAll remote s before w = (.normal (), w1) →
      processAll remote s (before ++ after) w = processAll remote s after w1 := by
  induction before with
  | nil =>
    intro w w1 h
    simp only [processAll, Prod.mk.injEq, true_and] at h
    subst h
    rfl
  | cons repo rest ih =>
    intro w w1 h
    simp only [processAll, List.cons_append] at h ⊢
    cases hp : processRepository remote s repo w with
    | mk c w0 =>
      rw [hp] at h
      cases c with
      | throw error => cases h
      | normal u =>
        simp only at h ⊢
        exact ih w0 w1 h

/-- A repository for which no request got a 2xx answer is counted as
failed. -/
theorem processRepository_failed {remote : Remote} {s : Script} {repo : String}
    {w w2 : World} (h : processRepository remote s repo w = (.normal (), w2))
    (hfail : ∀ new req answer, w2.log = w.log ++ new →
      Event.request req answer ∈ new → answer.ok = false) :
    w2.counters.rulesFailed = w.counters.rulesFailed + 1 ∧
    w2.counters.rulesApplied = w.counters.rulesApplied := by
  obtain ⟨steps1, hs1, h1, hc⟩ := processRepository_cases remote s repo w
  rcases hc with ⟨error, -, hp⟩ | ⟨b1, c2, steps2, hs2, hb1, h2, ⟨error, -, hp⟩ | ⟨b2, hc2, hp⟩⟩
  · rw [hp] at h
    cases h
  · rw [hp] at h
    cases h
  · rw [hp] at h
    simp only [Prod.mk.injEq, true_and] at h
    subst h
    simp only [List.append_assoc] at hfail
    have k1 : b1 = false := by
      cases b1 with
      | false => rfl
      | true =>
        obtain ⟨earlier, write, answer, hlog, hok⟩ :=
          applyRuleset_true_request remote s.org repo s.branchNamingRule
            (w.log ++ [.processing repo]) hb1
        rw [h1] at hlog
        simp only [List.append_assoc, List.cons_append, List.nil_append,
          List.append_cancel_left_eq] at hlog
        have hm : Event.request write answer ∈
            Event.processing repo :: Event.applying repo s.branchNamingRule :: steps1 := by
          rw [hlog]
          simp
        rw [hfail _ write answer rfl (List.mem_append_left _ hm)] at hok
        cases hok
    have k2 : b2 = false := by
      cases b2 with
      | false => rfl
      | true =>
        have hr2 : (applyRuleset remote s.org repo s.preventDeleteRule
            (w.log ++ (Event.processing repo ::
              Event.applying repo s.branchNamingRule :: steps1))).1 = .normal true := by
          rw [h2, hc2]
        obtain ⟨earlier, write, answer, hlog, hok⟩ :=
          applyRuleset_true_request remote s.org repo s.preventDeleteRule _ hr2
        rw [h2] at hlog
        simp only [List.append_assoc, List.cons_append, List.nil_append,
          List.append_cancel_left_eq, List.cons.injEq, true_and] at hlog
        have hm : Event.request write answer ∈
            Event.applying repo s.preventDeleteRule :: steps2 := by
          rw [hlog]
          simp
        rw [hfail _ write answer rfl (List.mem_append_right _ hm)] at hok
        cases hok
    subst k1 k2
    simp [count]

/-- C4: `totalRepos` is the length of the repository list, and at the end of
a normal run (exit status 0) `totalRepos = rulesApplied + rulesFailed`. -/
theorem run_counters_balance (remote : Remote) (s : Script) (repos : List String) :
    (run remote s repos).2.counters.totalRepos = repos.length ∧
    ((run remote s repos).1 = 0 →
      (run remote s repos).2.counters.totalRepos =
        (run remote s repos).2.counters.rulesApplied +
          (run remote s repos).2.counters.rulesFailed) := by
  have ht := processAll_totalRepos remote s repos (initial repos)
  have hs := processAll_normal_spec remote s repos (initial repos)
  simp only [run, main]
  cases hp : processAll remote s repos (initial repos) with
  | mk c w1 =>
    rw [hp] at ht
    cases c with
    | throw error =>
      refine ⟨ht, fun h => ?_⟩
      cases h
    | normal u =>
      refine ⟨ht, fun _ => ?_⟩
      obtain ⟨-, h2, h3⟩ := hs w1 hp
      simp only [initial] at h2 h3
      simp only
      rw [h2, h3]
      simp

/-- Witness of C4: a run in which the creation of one rule throws an error
for every repository is a normal run. -/
theorem run_counters_balance_witness :
    (run partialRemote cityScript ["repo-a", "repo-b"]).1 = 0 ∧
    (run partialRemote cityScript ["repo-a", "repo-b"]).2.counters.totalRepos =
      (run partialRemote cityScript ["repo-a", "repo-b"]).2.counters.rulesApplied +
        (run partialRemote cityScript ["repo-a", "repo-b"]).2.counters.rulesFailed :=
  ⟨rfl, (run_counters_balance partialRemote cityScript ["repo-a", "repo-b"]).2 rfl⟩

/-- C5 (amended): when the names of both rule configurations have a string
conversion and the `catch` block of `applyRuleset` can report every thrown
value, `main` calls `processRepository` once for each element of the
repository list, in list order, whatever the remote API answers. -/
theorem main_processes_each_once (remote : Remote) (s : Script) (repos : List String)
    (w : World) (hn1 : (Obj.get s.branchNamingRule "name").printable = true)
    (hn2 : (Obj.get s.preventDeleteRule "name").printable = true)
    (hremote : Handled remote) :
    processed (main remote s repos w).2.log = processed w.log ++ repos ∧
    processed (run remote s repos).2.log = repos := by
  have key : ∀ w : World, processed (main remote s repos w).2.log = processed w.log ++ repos := by
    intro w0
    obtain ⟨w1, h⟩ := processAll_returns remote s repos hn1 hn2 hremote w0
    obtain ⟨hp, -, -⟩ := processAll_normal_spec remote s repos w0 w1 h
    simp only [main, h]
    rw [← hp]
    simp [processed, List.filterMap_append]
  refine ⟨key w, ?_⟩
  rw [run, key]
  rfl

/-- Witness of C5 (amended): every request throws an error; both
repositories are processed, in order. -/
theorem main_processes_each_once_witness :
    (Obj.get cityScript.branchNamingRule "name").printable = true ∧
    (Obj.get cityScript.preventDeleteRule "name").printable = true ∧
    Handled downRemote ∧
    processed (run downRemote cityScript ["repo-a", "repo-b"]).2.log = ["repo-a", "repo-b"] :=
  ⟨rfl, rfl, handled_downRemote,
    (main_processes_each_once downRemote cityScript ["repo-a", "repo-b"]
      (initial ["repo-a", "repo-b"]) rfl rfl handled_downRemote).2⟩

/-- C5 as stated fails: when the calls reject with `undefined`, the run
stops in the first repository: `repo-b` is never processed. -/
theorem main_short_circuits :
    processed (run undefinedRemote cityScript ["repo-a", "repo-b"]).2.log = ["repo-a"] ∧
    processed (run freshRemote oddScript ["repo-a", "repo-b"]).2.log = ["repo-a"] :=
  ⟨rfl, rfl⟩

/-- C9 (amended): when the names of both rule configurations have a string
conversion and the `catch` block of `applyRuleset` can report every thrown
value, `main` processes every repository of the list, reaches the summary and
ends with exit status 0, with `rulesApplied + rulesFailed` grown by the
length of the list.  For each repository of the list, processing it within
the run completes normally, and when every request made for it throws or gets
a non-2xx answer, `rulesFailed` grows by exactly 1 and `rulesApplied` is
unchanged. -/
theorem main_exits_zero (remote : Remote) (s : Script) (repos : List String) (w : World)
    (hn1 : (Obj.get s.branchNamingRule "name").printable = true)
    (hn2 : (Obj.get s.preventDeleteRule "name").printable = true)
    (hremote : Handled remote) :
    (main remote s repos w).1 = 0 ∧
    (∃ earlier t a f, (main remote s repos w).2.log = earlier ++ [.summary t a f]) ∧
    processed (main remote s repos w).2.log = processed w.log ++ repos ∧
    (main remote s repos w).2.counters.rulesApplied +
        (main remote s repos w).2.counters.rulesFailed =
      w.counters.rulesApplied + w.counters.rulesFailed + repos.length ∧
    ∀ (before : List String) (repo : String) (after : List String),
      repos = before ++ repo :: after →
      ∃ w1 w2, processAll remote s before w = (.normal (), w1) ∧
        processRepository remote s repo w1 = (.normal (), w2) ∧
        main remote s repos w = main remote s after w2 ∧
        ((∀ new req answer, w2.log = w1.log ++ new →
            Event.request req answer ∈ new → answer.ok = false) →
          w2.counters.rulesFailed = w1.counters.rulesFailed + 1 ∧
          w2.counters.rulesApplied = w1.counters.rulesApplied) := by
  obtain ⟨wf, h⟩ := processAll_returns remote s repos hn1 hn2 hremote w
  obtain ⟨hp, -, hsum⟩ := processAll_normal_spec remote s repos w wf h
  refine ⟨by simp only [main, h], ⟨wf.log, wf.counters.totalRepos, wf.counters.rulesApplied,
    wf.counters.rulesFailed, by simp only [main, h]⟩, ?_, ?_, ?_⟩
  · simp only [main, h]
    rw [← hp]
    simp [processed, List.filterMap_append]
  · simp only [main, h]
    exact hsum
  · intro before repo after hrepos
    obtain ⟨w1, h1⟩ := processAll_returns remote s before hn1 hn2 hremote w
    obtain ⟨w2, h2⟩ := processRepository_returns remote s repo w1 hn1 hn2 hremote
    refine ⟨w1, w2, h1, h2, ?_, processRepository_failed h2⟩
    have hall : processAll remote s repos w = processAll remote s after w2 := by
      rw [hrepos, processAll_append remote s before (repo :: after) w w1 h1]
      simp only [processAll, h2]
    simp only [main, hall]

/-- Witness of C9 (amended): every request throws an error; the run over
`repo-a`, `repo-b` ends with exit status 0 and `rulesFailed` = 2, and
processing `repo-b` after `repo-a` adds 1 to `rulesFailed`. -/
theorem main_exits_zero_witness :
    (Obj.get cityScript.branchNamingRule "name").printable = true ∧
    (Obj.get cityScript.preventDeleteRule "name").printable = true ∧
    Handled downRemote ∧
    (main downRemote cityScript ["repo-a", "repo-b"] (initial ["repo-a", "repo-b"])).1 = 0 ∧
    ∃ w1 w2,
      processAll downRemote cityScript ["repo-a"] (initial ["repo-a", "repo-b"]) =
        (.normal (), w1) ∧
      processRepository downRemote cityScript "repo-b" w1 = (.normal (), w2) ∧
      main downRemote cityScript ["repo-a", "repo-b"] (initial ["repo-a", "repo-b"]) =
        main downRemote cityScript [] w2 ∧
      ((∀ new req answer, w2.log = w1.log ++ new →
          Event.request req answer ∈ new → answer.ok = false) →
        w2.counters.rulesFailed = w1.counters.rulesFailed + 1 ∧
        w2.counters.rulesApplied = w1.counters.rulesApplied) :=
  ⟨rfl, rfl, handled_downRemote,
    (main_exits_zero downRemote cityScript ["repo-a", "repo-b"]
      (initial ["repo-a", "repo-b"]) rfl rfl handled_downRemote).1,
    (main_exits_zero downRemote cityScript ["repo-a", "repo-b"]
      (initial ["repo-a", "repo-b"]) rfl rfl handled_downRemote).2.2.2.2
      ["repo-a"] "repo-b" [] rfl⟩

/-- C9 as stated fails: when the calls reject with `undefined`, or when a
configured name has no string conversion, `main` takes the exit-code-1
branch in the first repository, prints no summary, and `rulesFailed` stays
0. -/
theorem main_exits_one :
    (run undefinedRemote cityScript ["repo-a", "repo-b"]).1 = 1 ∧
    (run undefinedRemote cityScript ["repo-a", "repo-b"]).2.counters.rulesFailed = 0 ∧
    (run undefinedRemote cityScript ["repo-a", "repo-b"]).2.log =
      [.processing "repo-a", .applying "repo-a" namingRule,
        .request (listRequest "city" "repo-a") (.throws .undefined)] ∧
    (run freshRemote oddScript ["repo-a", "repo-b"]).1 = 1 ∧
    (run freshRemote oddScript ["repo-a", "repo-b"]).2.log =
      [.processing "repo-a", .applying "repo-a" oddNameRule] :=
  ⟨rfl, rfl, rfl, rfl, rfl⟩

/-- C10: the parameters of every write request of `applyRuleset` are the
computed members (`owner`, `repo` and, on update, `ruleset_id` with the id of
the ruleset found in the listing) followed by the members of `ruleConfig`.
So every member of `ruleConfig` is sent with its configured value; the write
targets `org`, `repo` and the found id when `ruleConfig` has no member of
that name; and there is a `ruleConfig` with such members for which the
update targets another owner, repository and ruleset id than the listed
ones. -/
theorem write_params_overlay :
    (∀ (remote : Remote) (org repo : String) (ruleConfig : Obj) (log new : List Event)
        (write : Request) (answer : Outcome),
      (applyRuleset remote org repo ruleConfig log).2 = log ++ new →
      Event.request write answer ∈ new → write.isWrite = true →
      (∃ base, write.params = base ++ ruleConfig ∧
        ((write.route = .createRuleset ∧
            base = [("owner", .str org), ("repo", .str repo)]) ∨
          (write.route = .updateRuleset ∧
            ∃ status data rule id,
              remote (log ++ [.applying repo ruleConfig]) (listRequest org repo) =
                .response status data ∧
              find data (Obj.get ruleConfig "name") = .normal rule ∧
              prop rule "id" = .normal id ∧
              base = [("owner", .str org), ("repo", .str repo), ("ruleset_id", id)])) ∧
        (∀ k, Obj.get write.params k =
          if Obj.hasKey ruleConfig k then Obj.get ruleConfig k else Obj.get base k) ∧
        (Obj.hasKey ruleConfig "owner" = false → Obj.get write.params "owner" = .str org) ∧
        (Obj.hasKey ruleConfig "repo" = false → Obj.get write.params "repo" = .str repo) ∧
        (Obj.hasKey ruleConfig "ruleset_id" = false →
          Obj.get write.params "ruleset_id" = Obj.get base "ruleset_id"))) ∧
    (∃ (ruleConfig : Obj) (write : Request) (answer : Outcome),
      Obj.hasKey ruleConfig "owner" = true ∧ Obj.hasKey ruleConfig "repo" = true ∧
      Obj.hasKey ruleConfig "ruleset_id" = true ∧
      (applyRuleset seededRemote "city" "repo-a" ruleConfig []).2 =
        [.applying "repo-a" ruleConfig,
          .request (listRequest "city" "repo-a")
            (.response 200 (.arr [.obj [("id", .num 1), ("name", .str "naming")]])),
          .request write answer] ∧
      write.route = .updateRuleset ∧
      Obj.get write.params "owner" = .str "elsewhere" ∧
      Obj.get write.params "repo" = .str "other" ∧
      Obj.get write.params "ruleset_id" = .num 99) := by
  constructor
  · intro remote org repo ruleConfig log new write answer hnew hmem hw
    have hbase : ∀ base : Obj,
        (Obj.get base "owner" = .str org) → (Obj.get base "repo" = .str repo) →
        write.params = base ++ ruleConfig →
        (∀ k, Obj.get write.params k =
          if Obj.hasKey ruleConfig k then Obj.get ruleConfig k else Obj.get base k) ∧
        (Obj.hasKey ruleConfig "owner" = false → Obj.get write.params "owner" = .str org) ∧
        (Obj.hasKey ruleConfig "repo" = false → Obj.get write.params "repo" = .str repo) ∧
        (Obj.hasKey ruleConfig "ruleset_id" = false →
          Obj.get write.params "ruleset_id" = Obj.get base "ruleset_id") := by
      intro base ho hr hp
      refine ⟨fun k => by rw [hp, Obj.get_append], ?_, ?_, ?_⟩
      · intro hk
        rw [hp, Obj.get_append, hk, ← ho]
        rfl
      · intro hk
        rw [hp, Obj.get_append, hk, ← hr]
        rfl
      · intro hk
        rw [hp, Obj.get_append, hk]
        rfl
    rcases applyRuleset_cases remote org repo ruleConfig log with
      ⟨-, h⟩ | ⟨-, ⟨error, -, h⟩ | ⟨status, data, -, h⟩ | ⟨status, data, wr, hl, hwr, h⟩⟩
    · rw [h] at hnew
      simp only [List.append_cancel_left_eq] at hnew
      subst hnew
      simp at hmem
    · rw [h] at hnew
      simp only [List.append_assoc, List.cons_append, List.nil_append,
        List.append_cancel_left_eq] at hnew
      subst hnew
      simp at hmem
      rw [hmem.1] at hw
      cases hw
    · rw [h] at hnew
      simp only [List.append_assoc, List.cons_append, List.nil_append,
        List.append_cancel_left_eq] at hnew
      subst hnew
      simp at hmem
      rw [hmem.1] at hw
      cases hw
    · rw [h] at hnew
      simp only [List.append_assoc, List.cons_append, List.nil_append,
        List.append_cancel_left_eq] at hnew
      subst hnew
      simp at hmem
      rcases hmem with ⟨hm, -⟩ | ⟨hm, -⟩
      · rw [hm] at hw
        cases hw
      · subst hm
        rcases hwr with ⟨rule, hf, -, rfl⟩ | ⟨rule, id, hf, -, hp, -, rfl⟩
        · exact ⟨[("owner", .str org), ("repo", .str repo)], rfl, Or.inl ⟨rfl, rfl⟩,
            hbase _ rfl rfl rfl⟩
        · exact ⟨[("owner", .str org), ("repo", .str repo), ("ruleset_id", id)], rfl,
            Or.inr ⟨rfl, status, data, rule, id, hl, hf, hp, rfl⟩, hbase _ rfl rfl rfl⟩
  · exact ⟨retargetingRule, updateRequest "city" "repo-a" (.num 1) retargetingRule,
      .response 200 .null, rfl, rfl, rfl, rfl, rfl, rfl, rfl, rfl⟩

/-- Witness of C10: a rule configuration without members `owner`, `repo`
and `ruleset_id`; the update call targets `city`, `repo-a` and the listed
id 1. -/
theorem write_params_overlay_witness :
    (applyRuleset seededRemote "city" "repo-a" namingRule []).2 =
        [] ++ [.applying "repo-a" namingRule,
          .request (listRequest "city" "repo-a")
            (.response 200 (.arr [.obj [("id", .num 1), ("name", .str "naming")]])),
          .request (updateRequest "city" "repo-a" (.num 1) namingRule) (.response 200 .null)] ∧
      ∃ base, (updateRequest "city" "repo-a" (.num 1) namingRule).params = base ++ namingRule ∧
        (((updateRequest "city" "repo-a" (.num 1) namingRule).route = .createRuleset ∧
            base = [("owner", .str "city"), ("repo", .str "repo-a")]) ∨
          ((updateRequest "city" "repo-a" (.num 1) namingRule).route = .updateRuleset ∧
            ∃ status data rule id,
              seededRemote ([] ++ [.applying "repo-a" namingRule])
                  (listRequest "city" "repo-a") = .response status data ∧
              find data (Obj.get namingRule "name") = .normal rule ∧
              prop rule "id" = .normal id ∧
              base = [("owner", .str "city"), ("repo", .str "repo-a"), ("ruleset_id", id)])) ∧
        (∀ k, Obj.get (updateRequest "city" "repo-a" (.num 1) namingRule).params k =
          if Obj.hasKey namingRule k then Obj.get namingRule k else Obj.get base k) ∧
        (Obj.hasKey namingRule "owner" = false →
          Obj.get (updateRequest "city" "repo-a" (.num 1) namingRule).params "owner" =
            .str "city") ∧
        (Obj.hasKey namingRule "repo" = false →
          Obj.get (updateRequest "city" "repo-a" (.num 1) namingRule).params "repo" =
            .str "repo-a") ∧
        (Obj.hasKey namingRule "ruleset_id" = false →
          Obj.get (updateRequest "city" "repo-a" (.num 1) namingRule).params "ruleset_id" =
            Obj.get base "ruleset_id") :=
  ⟨rfl, write_params_overlay.1 seededRemote "city" "repo-a" namingRule []
    [.applying "repo-a" namingRule,
      .request (listRequest "city" "repo-a")
        (.response 200 (.arr [.obj [("id", .num 1), ("name", .str "naming")]])),
      .request (updateRequest "city" "repo-a" (.num 1) namingRule) (.response 200 .null)]
    (updateRequest "city" "repo-a" (.num 1) namingRule) (.response 200 .null) rfl
    (List.mem_cons_of_mem _ (List.mem_cons_of_mem _ (List.mem_singleton.2 rfl))) rfl⟩

/-! ## Scenarios -/

/-- Two repositories without rulesets: both take the create path twice and
both are counted as applied. -/
theorem scenario_fresh_repositories :
    (run freshRemote cityScript ["repo-a", "repo-b"]).1 = 0 ∧
    (run freshRemote cityScript ["repo-a", "repo-b"]).2.counters.totalRepos = 2 ∧
    (run freshRemote cityScript ["repo-a", "repo-b"]).2.counters.rulesApplied = 2 ∧
    (run freshRemote cityScript ["repo-a", "repo-b"]).2.counters.rulesFailed = 0 ∧
    (requestsOf (run freshRemote cityScript ["repo-a", "repo-b"]).2.log).map Request.route =
      [.listRulesets, .createRuleset, .listRulesets, .createRuleset,
        .listRulesets, .createRuleset, .listRulesets, .createRuleset] :=
  ⟨rfl, rfl, rfl, rfl, rfl⟩

/-- A repository that has a ruleset named like the naming rule: the first
application updates, the second one still creates. -/
theorem scenario_existing_naming_rule :
    (requestsOf (processRepository seededRemote cityScript "repo-a"
        (initial ["repo-a"])).2.log).map Request.route =
      [.listRulesets, .updateRuleset, .listRulesets, .createRuleset] :=
  rfl

/-- Both applications throw an error for every repository: each repository
is counted as failed and the exit status is still 0. -/
theorem scenario_remote_down :
    (run downRemote cityScript ["repo-a", "repo-b"]).1 = 0 ∧
    (run downRemote cityScript ["repo-a", "repo-b"]).2.counters.rulesApplied = 0 ∧
    (run downRemote cityScript ["repo-a", "repo-b"]).2.counters.rulesFailed = 2 :=
  ⟨rfl, rfl, rfl⟩

end ApplyBranchRules
